import Mathlib

/-!
Shallow embedding of the gmail-scanner repository (src/inboxscanner2.py and
src/unsubscriber.py) together with proofs about the behaviour its
specification claims.  Python strings are modelled as lists of characters
(the inputs of interest are ASCII), Python datetimes as integers, Python
dicts as insertion-ordered association lists, and Python sets as
duplicate-free insertion-ordered lists (the report sorts every set before
printing it, so set iteration order is never observable).  Regular
expressions from the source are modelled by direct scanning functions that
follow the leftmost, non-overlapping, first-alternative semantics of the
Python re module on the literal-alternation patterns the source uses.
-/

/-- Python strings, modelled as lists of characters. -/
abbrev Str := List Char

/-- Does the pattern (first argument) occur as a prefix of the string? -/
def startsWith : Str → Str → Bool
  | [], _ => true
  | _ :: _, [] => false
  | p :: ps, c :: cs => if p = c then startsWith ps cs else false

/-- Does the pattern occur as a contiguous substring (Python `in`)? -/
def containsSub (pat : Str) : Str → Bool
  | [] => pat.isEmpty
  | c :: rest => startsWith pat (c :: rest) || containsSub pat rest

/-- The remainder of the string after the first occurrence of a character,
`none` when the character does not occur. -/
def afterFirst (c : Char) : Str → Option Str
  | [] => none
  | x :: rest => if x = c then some rest else afterFirst c rest

/-- The longest prefix not containing the character (models `takeWhile`
on a not-equal test, as produced by Python regex classes like `[^>]`). -/
def takeUntil (c : Char) : Str → Str
  | [] => []
  | x :: rest => if x = c then [] else x :: takeUntil c rest

/-- Longest prefix of characters satisfying the test. -/
def takeWhileB (p : Char → Bool) : Str → Str
  | [] => []
  | x :: rest => if p x then x :: takeWhileB p rest else []

/-- Drop the longest prefix of characters satisfying the test. -/
def dropWhileB (p : Char → Bool) : Str → Str
  | [] => []
  | x :: rest => if p x then dropWhileB p rest else x :: rest

/-- ASCII model of Python whitespace (the class matched by both `\s` and
`str.split`): space and the control characters 9 to 13. -/
def pySpace (c : Char) : Bool :=
  decide (c = ' ') || decide (9 ≤ c.toNat ∧ c.toNat ≤ 13)

/-- Python `str.strip()`. -/
def pyStrip (s : Str) : Str :=
  ((dropWhileB pySpace s).reverse |> dropWhileB pySpace).reverse

/-- Lowercase every character (ASCII model of Python `str.lower()`). -/
def lowerStr (s : Str) : Str := s.map Char.toLower

/-- Python `str.split()` without arguments: split on whitespace runs,
dropping empty fields.  Structural recursion on a fuel argument (one unit
per examined position, so the string length is always enough) keeps the
definition kernel-reducible. -/
def pySplitWsF : Nat → Str → List Str
  | 0, _ => []
  | _, [] => []
  | fuel + 1, c :: rest =>
    if pySpace c then pySplitWsF fuel rest
    else (c :: takeWhileB (fun x => !pySpace x) rest)
      :: pySplitWsF fuel (dropWhileB (fun x => !pySpace x) rest)

def pySplitWs (s : Str) : List Str := pySplitWsF s.length s

/-- Join words with single spaces (so `joinSpace (pySplitWs s)` models
Python's whitespace-collapsing idiom `' '.join(s.split())`). -/
def joinSpace : List Str → Str
  | [] => []
  | [w] => w
  | w :: ws => w ++ ' ' :: joinSpace ws

/-- Join strings with `"; "` (the report writer's separator). -/
def joinSemi : List Str → Str
  | [] => []
  | [w] => w
  | w :: ws => w ++ ';' :: ' ' :: joinSemi ws

/-- Insert into a Python-set model: append if not already present. -/
def setInsert {α : Type} [DecidableEq α] (x : α) (l : List α) : List α :=
  if x ∈ l then l else l ++ [x]

/-- Association-list lookup (model of Python dict indexing). -/
def alookup {α : Type} (k : Str) : List (Str × α) → Option α
  | [] => none
  | (k0, v) :: rest => if k0 = k then some v else alookup k rest

/-- Replace the value stored under an existing key, keeping its position
(model of Python dict assignment to a present key). -/
def updateAssoc {α : Type} (k : Str) (v : α) : List (Str × α) → List (Str × α)
  | [] => []
  | (k0, v0) :: rest =>
    if k0 = k then (k0, v) :: rest else (k0, v0) :: updateAssoc k v rest

/-- `counter[k] += 1` on a Python dict-of-ints defaulting to zero. -/
def bump (k : Str) : List (Str × Nat) → List (Str × Nat)
  | [] => [(k, 1)]
  | (k0, n) :: rest =>
    if k0 = k then (k0, n + 1) :: rest else (k0, n) :: bump k rest

/-- Lexicographic string comparison by code point (Python `<=` on str,
used to model `sorted`). -/
def strLe : Str → Str → Bool
  | [], _ => true
  | _ :: _, [] => false
  | x :: xs, y :: ys => if x = y then strLe xs ys else decide (x < y)

/-- Python `sorted` on strings. -/
def sortStr (l : List Str) : List Str :=
  l.insertionSort (fun a b => strLe a b = true)

/-- Value of a hexadecimal digit. -/
def hexVal (c : Char) : Option Nat :=
  if '0' ≤ c ∧ c ≤ '9' then some (c.toNat - 48)
  else if 'a' ≤ c ∧ c ≤ 'f' then some (c.toNat - 87)
  else if 'A' ≤ c ∧ c ≤ 'F' then some (c.toNat - 55)
  else none

/-- Modelled from the Python standard library urllib.parse.unquote (called
by the source): each percent sign followed by two hexadecimal digits is
replaced by the character with that code; a malformed percent escape is
kept verbatim and scanning continues after the percent sign.  Faithful for
the ASCII byte range the scanner's inputs use. -/
def pyUnquote : Str → Str
  | [] => []
  | c :: rest =>
    if c = '%' then
      match rest with
      | a :: b :: rest2 =>
        match hexVal a, hexVal b with
        | some x, some y => Char.ofNat (16 * x + y) :: pyUnquote rest2
        | _, _ => c :: pyUnquote (a :: b :: rest2)
      | [a] => c :: pyUnquote [a]
      | [] => [c]
    else c :: pyUnquote rest

/-- Modelled from urllib.parse: the plus-to-space then percent-decode step
parse_qs applies to every query name and value. -/
def unquotePlus (s : Str) : Str :=
  pyUnquote (s.map (fun c => if c = '+' then ' ' else c))

/-- Python `str.replace(pat, rep)`: replace every non-overlapping
occurrence, scanning left to right (fuel-structural as above; a match
consumes at least one character because an empty pattern never takes the
match branch). -/
def replaceAllF (pat rep : Str) : Nat → Str → Str
  | 0, s => s
  | _, [] => []
  | fuel + 1, c :: rest =>
    if pat ≠ [] ∧ startsWith pat (c :: rest) = true then
      rep ++ replaceAllF pat rep fuel ((c :: rest).drop pat.length)
    else c :: replaceAllF pat rep fuel rest

def replaceAll (pat rep : Str) (s : Str) : Str :=
  replaceAllF pat rep s.length s

/-- Split a string around the first occurrence of a substring:
`splitAtSub pat s = some (a, b)` when `s = a ++ pat ++ b` at the leftmost
occurrence, `none` when the pattern does not occur. -/
def splitAtSub (pat : Str) : Str → Option (Str × Str)
  | [] => if pat.isEmpty then some ([], []) else none
  | c :: rest =>
    if startsWith pat (c :: rest) then some ([], (c :: rest).drop pat.length)
    else
      match splitAtSub pat rest with
      | some (a, b) => some (c :: a, b)
      | none => none

/-! ## src/inboxscanner2.py: domain extraction and text classification -/

/-- ASCII model of the regex class `\w`. -/
def wordChar (c : Char) : Bool := c.isAlphanum || c = '_'

/-- The regex class `[\w.-]` used by both domain-extraction regexes. -/
def emailChar (c : Char) : Bool := wordChar c || c = '.' || c = '-'

/-- Modelled from the Python standard library email.utils.parseaddr
(called at src/inboxscanner2.py line 117): for a header with an
angle-bracketed address the address part is the text between the first
left angle bracket and the following right one; otherwise the trimmed
header itself is the address.  Faithful for well-formed single-address
From headers (checked against CPython); exotic malformed inputs are
outside the model. -/
def parseaddrAddr (s : Str) : Str :=
  match afterFirst '<' s with
  | some t => takeUntil '>' t
  | none => pyStrip s

/-- The regex search `@([\w.-]+)` from src/inboxscanner2.py line 122:
first at-sign followed by at least one `[\w.-]` character; the group is
the maximal such run. -/
def regexAtDomain : Str → Option Str
  | [] => none
  | c :: rest =>
    if c = '@' then
      let run := takeWhileB emailChar rest
      if run = [] then regexAtDomain rest else some run
    else regexAtDomain rest

/-- The fixed TLD alternation of the bare-domain regex at
src/inboxscanner2.py line 127, in source order. -/
def tldList : List Str :=
  ["com", "org", "net", "edu", "gov", "io", "ai", "app", "co", "us", "uk",
   "de", "fr", "es", "it", "nl", "ru", "cn", "jp", "br", "au", "ca", "ch",
   "se", "no", "dk", "fi", "pl", "cz", "hu", "ro", "bg", "gr", "pt", "ie",
   "be", "at", "sk", "hr", "rs", "si", "ee", "lv", "lt", "by", "ua", "md",
   "tr", "il", "sa", "ae", "qa", "eg", "za", "in", "pk", "bd", "th", "vn",
   "id", "ph", "my", "sg", "kr", "tw", "hk", "nz"].map String.toList

/-- First TLD of the alternation that is a prefix of the string (Python
alternation tries alternatives in listed order). -/
def tldFirst : List Str → Str → Option Str
  | [], _ => none
  | t :: ts, s => if startsWith t s then some t else tldFirst ts s

/-- The group `([\w.-]+(?:\.(?:com|org|...)))` matched against a maximal
`[\w.-]` run: the greedy `[\w.-]+` backtracks from the right, so the
chosen split is the rightmost dot position (at index at least 1) whose
suffix starts with a TLD of the alternation; the group is the run up to
that dot plus the dot and the matched TLD.  Checked against CPython
(for example the run `mail.example.community` yields
`mail.example.com`). -/
def tldGroupFrom (run : Str) : Option Str :=
  let candidates := (List.range run.length).filter
    (fun p => decide (1 ≤ p) && (run.drop p |> startsWith ['.'])
      && (tldFirst tldList (run.drop (p + 1))).isSome)
  match candidates.foldl (fun acc p => max acc p) 0, candidates with
  | _, [] => none
  | p, _ :: _ =>
    match tldFirst tldList (run.drop (p + 1)) with
    | some t => some (run.take p ++ '.' :: t)
    | none => none

/-- One start position of the bare-domain regex search: the optional
`https?://` and `www.` prefixes (tried greedily, present first), then the
group against the maximal `[\w.-]` run.  Returns the group on success. -/
def tldTryAt (s : Str) : Option Str :=
  let offs : List Nat :=
    (if startsWith ("https://".toList) s then [8]
     else if startsWith ("http://".toList) s then [7] else []) ++ [0]
  let offs2 : List Nat := offs.flatMap (fun o =>
    (if startsWith ("www.".toList) (s.drop o) then [o + 4] else []) ++ [o])
  offs2.foldl (fun acc o =>
    match acc with
    | some g => some g
    | none =>
      let run := takeWhileB emailChar (s.drop o)
      if run = [] then none else tldGroupFrom run) none

/-- The regex search `(?:https?://)?(?:www\.)?([\w.-]+(?:\.TLD))` from
src/inboxscanner2.py lines 127-130: leftmost start position wins. -/
def regexTldDomain : Str → Option Str
  | [] => none
  | c :: rest =>
    match tldTryAt (c :: rest) with
    | some g => some g
    | none => regexTldDomain rest

/-- `_extract_domain_from_email` (src/inboxscanner2.py lines 114-135):
parseaddr, then the `@domain` regex, then the bare-domain regex, then the
lowercased full string.  The Python `email_addr.split('@')[1]` is the text
between the first and second at-sign (or the end). -/
def extract_domain_from_email (s : Str) : Str :=
  let addr := parseaddrAddr s
  if containsSub ['@'] addr then
    lowerStr (takeUntil '@' ((afterFirst '@' addr).getD []))
  else
    match regexAtDomain s with
    | some d => lowerStr d
    | none =>
      match regexTldDomain s with
      | some d => lowerStr d
      | none => lowerStr s

/-- The service-alias table of `_normalize_service_name`
(src/inboxscanner2.py lines 141-148), in source order. -/
def serviceMappings : List (Str × List Str) :=
  [("google", ["gmail", "googlemail"]),
   ("microsoft", ["outlook", "hotmail", "live"]),
   ("meta", ["facebook", "instagram", "whatsapp"]),
   ("amazon", ["aws", "prime"]),
   ("zoom", ["zoominfo", "zoomvideo"]),
   ("youtube", ["yt", "youtu"])].map
    (fun p => (p.1.toList, p.2.map String.toList))

/-- `_normalize_service_name` (src/inboxscanner2.py lines 137-155). -/
def normalize_service_name (service : Str) : Str :=
  let s := lowerStr service
  let rec go : List (Str × List Str) → Str
    | [] => s
    | (main, aliases) :: rest => if s ∈ aliases then main else go rest
  go serviceMappings

/-- The category keyword table of `_find_accounts`
(src/inboxscanner2.py lines 229-238), each pattern as its ordered list of
literal alternatives. -/
def categoryPatterns : List (Str × List Str) :=
  [("Social Media",
    ["facebook", "twitter", "instagram", "linkedin", "tiktok", "reddit",
     "snapchat", "pinterest"]),
   ("Shopping",
    ["amazon", "ebay", "etsy", "shopify", "walmart", "target", "bestbuy",
     "aliexpress"]),
   ("Finance",
    ["paypal", "stripe", "bank", "credit", "venmo", "cashapp", "wise",
     "coinbase", "crypto"]),
   ("Cloud Services",
    ["google", "dropbox", "icloud", "onedrive", "box", "mega",
     "protonmail"]),
   ("Subscription Services",
    ["netflix", "spotify", "hulu", "disney", "prime", "youtube",
     "paramount", "peacock", "apple"]),
   ("Gaming",
    ["steam", "epic", "origin", "uplay", "psn", "xbox", "nintendo",
     "battlenet"]),
   ("Professional",
    ["slack", "zoom", "teams", "asana", "jira", "trello", "github",
     "gitlab"]),
   ("Travel",
    ["airbnb", "booking", "expedia", "uber", "lyft", "airlines",
     "hotel"])].map (fun p => (p.1.toList, p.2.map String.toList))

/-- First alternative of the alternation matching at this position. -/
def firstMatch : List Str → Str → Option Str
  | [], _ => none
  | a :: rest, s => if startsWith a s then some a else firstMatch rest s

/-- `re.finditer` on a case-folded alternation of literals: leftmost,
non-overlapping matches, first listed alternative preferred at each
position.  The input is already lowercased by the caller. -/
def scanAltsF (alts : List Str) : Nat → Str → List Str
  | 0, _ => []
  | _, [] => []
  | fuel + 1, c :: rest =>
    match firstMatch alts (c :: rest) with
    | some k => k :: scanAltsF alts fuel (rest.drop (k.length - 1))
    | none => scanAltsF alts fuel rest

def scanAlts (alts : List Str) (s : Str) : List Str :=
  scanAltsF alts s.length s

/-- `_find_accounts` (src/inboxscanner2.py lines 227-247): each category
pattern is scanned over the whole text case-insensitively; every matched
keyword is alias-normalized and collected into a set of
(service, category) pairs.  Python set iteration order is arbitrary; the
model keeps discovery order, which no claim observes. -/
def find_accounts (content : Str) : List (Str × Str) :=
  categoryPatterns.foldl (fun acc p =>
    (scanAlts p.2 (lowerStr content)).foldl
      (fun a k => setInsert (normalize_service_name k, p.1) a) acc) []

/-! ## src/inboxscanner2.py: per-domain aggregation state -/

/-- One entry of `self.domain_data` (src/inboxscanner2.py lines 20-28).
Timestamps are integers; `unsubscribe_data` maps a URL to its
(timestamp, optional token) pair. -/
structure DomainRec where
  senders : List (Str × Nat)
  categories : List Str
  unsubscribe_data : List (Str × (Int × Option Str))
  list_unsubscribe : Bool
  unsubscribe_urls : List Str
  unsubscribe_mailtos : List Str
  last_unsubscribe_header : Option Str
deriving DecidableEq, Repr

/-- The defaultdict default record. -/
def emptyRec : DomainRec :=
  { senders := [], categories := [], unsubscribe_data := [],
    list_unsubscribe := false, unsubscribe_urls := [],
    unsubscribe_mailtos := [], last_unsubscribe_header := none }

/-- The whole `self.domain_data` defaultdict, insertion ordered. -/
abbrev ScanState := List (Str × DomainRec)

/-- Read a domain's record (defaultdict semantics: absent keys read as the
default record). -/
def getRec (st : ScanState) (d : Str) : DomainRec :=
  (alookup d st).getD emptyRec

/-- Write a domain's record: update in place when the key exists, append
otherwise (defaultdict insertion order). -/
def setRec (st : ScanState) (d : Str) (r : DomainRec) : ScanState :=
  match st with
  | [] => [(d, r)]
  | (k, v) :: rest =>
    if k = d then (d, r) :: rest else (k, v) :: setRec rest d r

/-- A scanned message, reduced to the headers and decoded body parts the
scanner reads: the raw From header, the raw List-Unsubscribe header, the
parsed Date timestamp, and the decoded text/plain and text/html payload
parts in walk order (`_decode_header` and `_decode_content` are identity
on the already-decoded strings the model works with). -/
structure Msg where
  fromH : Option Str
  listUnsubscribe : Option Str
  date : Option Int
  bodyParts : List Str
deriving DecidableEq, Repr

/-- `_process_sender` (src/inboxscanner2.py lines 186-195); both call
sites pass no category, so the optional-category branch never runs. -/
def process_sender (st : ScanState) (fromHeader : Str) : ScanState :=
  let d := extract_domain_from_email fromHeader
  let r := getRec st d
  setRec st d { r with senders := bump fromHeader r.senders }

/-- `re.findall` for the pattern matching `<` then `https?://` then one or
more non-`>` characters then `>` used at src/inboxscanner2.py lines 104
and 286; the group includes the scheme. -/
def findBracketHttpF : Nat → Str → List Str
  | 0, _ => []
  | _, [] => []
  | fuel + 1, c :: rest =>
    if c = '<' then
      let scheme : Nat :=
        if startsWith ("https://".toList) rest then 8
        else if startsWith ("http://".toList) rest then 7 else 0
      if scheme = 0 then findBracketHttpF fuel rest
      else
        let body := takeUntil '>' rest
        if scheme < body.length ∧ body.length < rest.length then
          body :: findBracketHttpF fuel (rest.drop (body.length + 1))
        else findBracketHttpF fuel rest
    else findBracketHttpF fuel rest

def findBracketHttp (s : Str) : List Str := findBracketHttpF s.length s

/-- `re.findall` for the pattern matching `<mailto:` then one or more
non-`>` characters then `>` (src/inboxscanner2.py line 105); the group
excludes the `mailto:` prefix. -/
def findBracketMailtoF : Nat → Str → List Str
  | 0, _ => []
  | _, [] => []
  | fuel + 1, c :: rest =>
    if c = '<' ∧ startsWith ("mailto:".toList) rest then
      let body := takeUntil '>' (rest.drop 7)
      if body ≠ [] ∧ 7 + body.length < rest.length then
        body :: findBracketMailtoF fuel (rest.drop (7 + body.length + 1))
      else findBracketMailtoF fuel rest
    else findBracketMailtoF fuel rest

def findBracketMailto (s : Str) : List Str := findBracketMailtoF s.length s

/-- `_store_unsubscribe_info` (src/inboxscanner2.py lines 101-112). -/
def store_unsubscribe_info (st : ScanState) (header : Str) (d : Str) :
    ScanState :=
  let urls := findBracketHttp header
  let mailtos := findBracketMailto header
  let r := getRec st d
  setRec st d
    { r with
      unsubscribe_urls := urls.foldl (fun a u => setInsert u a)
        r.unsubscribe_urls,
      unsubscribe_mailtos := mailtos.foldl (fun a m => setInsert m a)
        r.unsubscribe_mailtos }

/-- The query component of a URL, as urllib.parse.urlparse extracts it:
the fragment is split off at the first hash sign first, then the query is
everything after the first question mark of what remains. -/
def urlQuery (url : Str) : Str :=
  (afterFirst '?' (takeUntil '#' url)).getD []

/-- Python `s.split(sep)` on a single-character separator. -/
def splitOnChar (c : Char) : Str → List Str
  | [] => [[]]
  | x :: rest =>
    if x = c then [] :: splitOnChar c rest
    else
      match splitOnChar c rest with
      | [] => [[x]]
      | w :: ws => (x :: w) :: ws

/-- Modelled from urllib.parse.parse_qs with its defaults: split the query
on ampersands, keep only fields with an equals sign and a nonempty value,
decode names and values with unquote-plus, and collect values per name in
order. -/
def parseQs (q : Str) : List (Str × List Str) :=
  (splitOnChar '&' q).foldl (fun acc pair =>
    if containsSub ['='] pair then
      let k := takeUntil '=' pair
      let v := (afterFirst '=' pair).getD []
      if v = [] then acc
      else
        let k2 := unquotePlus k
        let v2 := unquotePlus v
        match alookup k2 acc with
        | some vs => updateAssoc k2 (vs ++ [v2]) acc
        | none => acc ++ [(k2, [v2])]
    else acc) []

/-- The ordered token parameter names of `_process_unsubscribe_url`
(src/inboxscanner2.py line 255). -/
def tokenParams : List Str :=
  ["token", "id", "uid", "key", "code", "hash", "verify"].map String.toList

/-- The token list collected by `_process_unsubscribe_url`: all values of
each present token parameter, in the fixed parameter order. -/
def extractTokens (url : Str) : List Str :=
  let qs := parseQs (urlQuery url)
  tokenParams.foldl (fun acc p =>
    match alookup p qs with
    | some vs => acc ++ vs
    | none => acc) []

/-- `_process_unsubscribe_url` (src/inboxscanner2.py lines 249-278):
store the (timestamp, first token) pair under the URL in the service
domain's `unsubscribe_data`, replacing an existing entry only when the new
timestamp is strictly greater, and always union the URL into the domain's
`unsubscribe_urls` set. -/
def process_unsubscribe_url (st : ScanState) (url service : Str)
    (timestamp : Int) : ScanState :=
  let tok : Option Str := (extractTokens url).head?
  let d := extract_domain_from_email service
  let r := getRec st d
  let data :=
    match alookup url r.unsubscribe_data with
    | none => r.unsubscribe_data ++ [(url, (timestamp, tok))]
    | some (t0, _) =>
      if t0 < timestamp then updateAssoc url (timestamp, tok)
        r.unsubscribe_data
      else r.unsubscribe_data
  setRec st d
    { r with unsubscribe_data := data,
             unsubscribe_urls := setInsert url r.unsubscribe_urls }

/-! ## src/inboxscanner2.py: body scanning and message ingestion -/

/-- The URL character class `[^\s<>"]` of the body unsubscribe
patterns. -/
def urlChar (c : Char) : Bool :=
  !(pySpace c || c = '<' || c = '>' || c = '"')

/-- Case-insensitive `https?://` at the start of the string; returns the
scheme length (the optional `s` is matched greedily). -/
def matchSchemeCI (s : Str) : Option Nat :=
  if lowerStr (s.take 8) = "https://".toList then some 8
  else if lowerStr (s.take 7) = "http://".toList then some 7
  else none

/-- One case-insensitive body pattern `https?://[^\s<>"]+KW[^\s<>"]*`
(src/inboxscanner2.py lines 291-295), where KW is an alternation of
literal keywords: a maximal URL-character run after a scheme matches
exactly when it contains a keyword starting at offset at least one, and
the greedy trailing class extends the match to the whole run (semantics
checked against CPython).  Matches are leftmost and non-overlapping. -/
def bodyScanF (kws : List Str) : Nat → Str → List Str
  | 0, _ => []
  | _, [] => []
  | fuel + 1, c :: rest =>
    match matchSchemeCI (c :: rest) with
    | some n =>
      let run := takeWhileB urlChar ((c :: rest).drop n)
      if run ≠ [] ∧
          (kws.any fun kw => containsSub kw (lowerStr (run.drop 1))) = true
      then ((c :: rest).take (n + run.length))
        :: bodyScanF kws fuel ((c :: rest).drop (n + run.length))
      else bodyScanF kws fuel rest
    | none => bodyScanF kws fuel rest

def bodyScan (kws : List Str) (s : Str) : List Str :=
  bodyScanF kws s.length s

/-- The three body unsubscribe patterns, run in source order
(src/inboxscanner2.py lines 291-300): their matches are processed in this
sequence. -/
def bodyUnsubMatches (content : Str) : List Str :=
  bodyScan (["unsubscribe", "opt-out", "optout"].map String.toList) content
    ++ bodyScan (["email-preferences", "emailpreferences"].map String.toList)
      content
    ++ bodyScan (["manage-subscriptions", "managesubscriptions"].map
      String.toList) content

/-- `_extract_unsubscribe_info` (src/inboxscanner2.py lines 280-300): the
message timestamp (Date header, else the current time), then every
bracketed header URL and every body unsubscribe match is fed to
`_process_unsubscribe_url` under the service token. -/
def extract_unsubscribe_info (st : ScanState) (m : Msg) (content : Str)
    (service : Str) (now : Int) : ScanState :=
  let ts := m.date.getD now
  let header := m.listUnsubscribe.getD []
  let st1 := (findBracketHttp header).foldl
    (fun s u => process_unsubscribe_url s u service ts) st
  (bodyUnsubMatches content).foldl
    (fun s u => process_unsubscribe_url s u service ts) st1

/-- The From/List-Unsubscribe header block that appears verbatim both in
`scan_emails` (src/inboxscanner2.py lines 81-92) and again at the top of
`_process_content` (lines 198-209): a truthy decoded From header is
recorded as a sender occurrence, and a truthy List-Unsubscribe header sets
the flag, stores the raw header and unions its bracketed targets. -/
def headerBlock (st : ScanState) (m : Msg) : ScanState :=
  let fromHeader := m.fromH.getD []
  if fromHeader = [] then st
  else
    let st1 := process_sender st fromHeader
    let d := extract_domain_from_email fromHeader
    let h := m.listUnsubscribe.getD []
    if h = [] then st1
    else
      let r := getRec st1 d
      let st2 := setRec st1 d
        { r with list_unsubscribe := true, last_unsubscribe_header := some h }
      store_unsubscribe_info st2 h d

/-- The body of the `_process_content` part loop
(src/inboxscanner2.py lines 211-225): a nonempty decoded part is
classified, and every (service, category) pair triggers unsubscribe
extraction under the service token and attaches the category to the
service token's domain. -/
def contentStep (m : Msg) (now : Int) (s : ScanState) (content : Str) :
    ScanState :=
  if content = [] then s
  else
    (find_accounts content).foldl (fun s2 sc =>
      let s3 := extract_unsubscribe_info s2 m content sc.1 now
      let d := extract_domain_from_email sc.1
      let r := getRec s3 d
      setRec s3 d { r with categories := setInsert sc.2 r.categories }) s

/-- `_process_content` (src/inboxscanner2.py lines 197-225): the header
block again, then the part loop over the decoded body parts. -/
def process_content (st : ScanState) (m : Msg) (now : Int) : ScanState :=
  let st1 := headerBlock st m
  m.bodyParts.foldl (contentStep m now) st1

/-- One iteration of the `scan_emails` message loop
(src/inboxscanner2.py lines 70-99): the header block, then
`_process_content` (which repeats the header block). -/
def scanMessage (st : ScanState) (m : Msg) (now : Int) : ScanState :=
  process_content (headerBlock st m) m now

/-- The whole `scan_emails` fetch loop over a mailbox. -/
def scanMessages (ms : List Msg) (now : Int) : ScanState :=
  ms.foldl (fun s m => scanMessage s m now) []

/-! ## src/inboxscanner2.py: the report writer `save_to_file` -/

/-- Total email count of a domain: the sum of its per-sender occurrence
counts (src/inboxscanner2.py line 327). -/
def totalEmails (r : DomainRec) : Nat :=
  (r.senders.map (fun p => p.2)).sum

/-- One written data row of the domain-analysis report, with the token
cell as text and the timestamp cell as an optional timestamp (the code
writes the sentinel string in its place when no candidate exists). -/
structure ReportRow where
  delete : Str
  listUnsub : Str
  domain : Str
  categories : Str
  senderCount : Nat
  totalCount : Nat
  sendersList : Str
  urls : Str
  mailtos : Str
  header : Str
  token : Str
  lastUpdated : Option Int
deriving DecidableEq, Repr

/-- The most recent `unsubscribe_data` item: Python
`max(items, key=timestamp)` keeps the first of equally-late items. -/
def mostRecent (x : Str × (Int × Option Str))
    (rest : List (Str × (Int × Option Str))) : Str × (Int × Option Str) :=
  rest.foldl (fun best y => if best.2.1 < y.2.1 then y else best) x

/-- The row `save_to_file` writes for one domain
(src/inboxscanner2.py lines 330-366). -/
def mkRow (d : Str) (data : DomainRec) : ReportRow :=
  let cats := if data.categories = [] then "Uncategorized".toList
    else joinSemi (sortStr data.categories)
  let tcPair : Str × Option Int :=
    match data.unsubscribe_data with
    | [] => ("N/A".toList, none)
    | x :: rest =>
      let mr := mostRecent x rest
      (match mr.2.2 with
       | some t => if t = [] then "No token".toList else t
       | none => "No token".toList,
       some mr.2.1)
  { delete := [],
    listUnsub := if data.list_unsubscribe then "Yes".toList else "No".toList,
    domain := d,
    categories := cats,
    senderCount := data.senders.length,
    totalCount := totalEmails data,
    sendersList := joinSemi (data.senders.map (fun p => p.1)),
    urls := if data.unsubscribe_urls = [] then []
      else joinSemi (sortStr data.unsubscribe_urls),
    mailtos := if data.unsubscribe_mailtos = [] then []
      else joinSemi (sortStr data.unsubscribe_mailtos),
    header := data.last_unsubscribe_header.getD [],
    token := tcPair.1,
    lastUpdated := tcPair.2 }

/-- The data rows of `save_to_file` (src/inboxscanner2.py lines 302-366):
domains sorted ascending, those with total email count below two
skipped. -/
def reportRows (st : ScanState) : List ReportRow :=
  (st.insertionSort (fun a b => strLe a.1 b.1 = true)).filterMap
    (fun p => if totalEmails p.2 < 2 then none else some (mkRow p.1 p.2))

/-! ## src/unsubscriber.py: header decoding and URL cleaning -/

/-- `decode_header_string` (src/unsubscriber.py lines 63-96): collapse
whitespace, collect every quoted-printable chunk between the literal
marker for a us-ascii Q-encoded word and its closing delimiter (the lazy
group captures up to the first closing delimiter), and when any chunk was
found, concatenate the chunks, expand the fixed equals-sign escapes and
percent-decode; otherwise return the collapsed header unchanged. -/
def findQEncF : Nat → Str → List Str
  | 0, _ => []
  | fuel + 1, s =>
    match splitAtSub ("=?us-ascii?Q?".toList) s with
    | none => []
    | some (_, afterMarker) =>
      match splitAtSub ("?=".toList) afterMarker with
      | none => []
      | some (capture, rest) => capture :: findQEncF fuel rest

def findQEnc (s : Str) : List Str := findQEncF s.length s

/-- The escape table of `decode_header_string`, in source order. -/
def decode_header_string (header : Str) : Str :=
  let h := joinSpace (pySplitWs header)
  let parts := findQEnc h
  if parts = [] then h
  else
    let encoded := parts.foldl (fun a p => a ++ p) []
    let d := replaceAll ("=3D".toList) ("=".toList) encoded
    let d := replaceAll ("=3F".toList) ("?".toList) d
    let d := replaceAll ("=2E".toList) (".".toList) d
    let d := replaceAll ("=2F".toList) ("/".toList) d
    let d := replaceAll ("=5F".toList) ("_".toList) d
    let d := replaceAll ("=2D".toList) ("-".toList) d
    let d := replaceAll ("=3C".toList) ("<".toList) d
    let d := replaceAll ("=3E".toList) (">".toList) d
    let d := replaceAll ("=40".toList) ("@".toList) d
    pyUnquote d

/-- `clean_url` (src/unsubscriber.py lines 150-176): the fixed
equals-sign escape replacements in source order, then percent-decoding. -/
def clean_url (url : Str) : Str :=
  let u := replaceAll ("=3A//".toList) ("://".toList) url
  let u := replaceAll ("=3A".toList) (":".toList) u
  let u := replaceAll ("=2E".toList) (".".toList) u
  let u := replaceAll ("=2F".toList) ("/".toList) u
  let u := replaceAll ("=5F".toList) ("_".toList) u
  let u := replaceAll ("=2D".toList) ("-".toList) u
  let u := replaceAll ("=3D".toList) ("=".toList) u
  let u := replaceAll ("=26".toList) ("&".toList) u
  let u := replaceAll ("=3F".toList) ("?".toList) u
  pyUnquote u

/-- `re.findall` for the pattern matching `<` then one or more non-`>`
characters then `>` (src/unsubscriber.py line 190). -/
def findBracketAnyF : Nat → Str → List Str
  | 0, _ => []
  | _, [] => []
  | fuel + 1, c :: rest =>
    if c = '<' then
      let body := takeUntil '>' rest
      if body ≠ [] ∧ body.length < rest.length then
        body :: findBracketAnyF fuel (rest.drop (body.length + 1))
      else findBracketAnyF fuel rest
    else findBracketAnyF fuel rest

def findBracketAny (s : Str) : List Str := findBracketAnyF s.length s

/-- `extract_unsubscribe_info` of the executor
(src/unsubscriber.py lines 178-205): decode the header, take every
bracketed part, clean and strip it, and sort it into HTTP URLs and mailto
addresses (the mailto prefix removed). -/
def executorExtract (header : Str) : List Str × List Str :=
  let decoded := decode_header_string header
  let parts := findBracketAny decoded
  parts.foldl (fun acc part =>
    let cp := pyStrip (clean_url part)
    if startsWith ("http".toList) cp then (acc.1 ++ [cp], acc.2)
    else if startsWith ("mailto:".toList) cp then
      (acc.1, acc.2 ++ [replaceAll ("mailto:".toList) [] cp])
    else acc) ([], [])

/-- `parse_mailto` (src/unsubscriber.py lines 98-128): strip and
percent-decode, split recipient from parameters at the first question
mark, parse ampersand-separated parameters (lowercased names, decoded
values, later duplicates overwriting), and default the subject and
body. -/
structure MailtoInfo where
  email : Str
  subject : Str
  body : Str
deriving DecidableEq, Repr

def parse_mailto (mailtoStr : Str) : MailtoInfo :=
  let m := pyUnquote (pyStrip mailtoStr)
  let emailPart := takeUntil '?' m
  let paramsPart := if containsSub ['?'] m then (afterFirst '?' m).getD []
    else []
  let params : List (Str × Str) :=
    (splitOnChar '&' paramsPart).foldl (fun acc pair =>
      if containsSub ['='] pair then
        let k := lowerStr (takeUntil '=' pair)
        let v := pyUnquote ((afterFirst '=' pair).getD [])
        match alookup k acc with
        | some _ => updateAssoc k v acc
        | none => acc ++ [(k, v)]
      else acc) []
  { email := emailPart,
    subject := (alookup ("subject".toList) params).getD
      ("Unsubscribe".toList),
    body := (alookup ("body".toList) params).getD [] }

/-! ## src/unsubscriber.py: the executor -/

/-- `find_unsubscribe_info` (src/unsubscriber.py lines 207-249): walk the
mailbox newest first; the first message whose From header contains the
domain case-insensitively and that carries a truthy List-Unsubscribe
header yields the extracted (urls, mailtos); `none` models the
(None, None) return. -/
def find_unsubscribe_info (mailbox : List Msg) (domain : Str) :
    Option (List Str × List Str) :=
  let rec go : List Msg → Option (List Str × List Str)
    | [] => none
    | m :: rest =>
      let fromHeader := m.fromH.getD []
      if containsSub (lowerStr domain) (lowerStr fromHeader) then
        let h := m.listUnsubscribe.getD []
        if h = [] then go rest else some (executorExtract h)
      else go rest
  go mailbox.reverse

/-- One network action of the executor, for observing which methods a run
attempted. -/
inductive Attempt where
  | httpGet (url : Str)
  | mailSend (addr : Str)
deriving DecidableEq, Repr

/-- The HTTP loop of `unsubscribe_from_domain`
(src/unsubscriber.py lines 258-271): try each URL in order against the
HTTP oracle (`some code` a response status, `none` a transport error);
status 200 succeeds and stops, anything else records and continues. -/
def tryHttp (httpO : Str → Option Nat) : List Str → Bool × List Attempt
  | [] => (false, [])
  | u :: rest =>
    if httpO u = some 200 then (true, [Attempt.httpGet u])
    else
      let r := tryHttp httpO rest
      (r.1, Attempt.httpGet u :: r.2)

/-- The mailto loop of `unsubscribe_from_domain`
(src/unsubscriber.py lines 273-282): parse each mailto and send through
the SMTP oracle; the first successful send stops. -/
def tryMail (smtpO : Str → Bool) : List Str → Bool × List Attempt
  | [] => (false, [])
  | mt :: rest =>
    let info := parse_mailto mt
    if smtpO info.email then (true, [Attempt.mailSend info.email])
    else
      let r := tryMail smtpO rest
      (r.1, Attempt.mailSend info.email :: r.2)

/-- `unsubscribe_from_domain` (src/unsubscriber.py lines 251-287): look
the targets up in the mailbox, try every HTTP URL in order, and only when
no HTTP attempt succeeded try the mailtos; returns the success flag and
the attempts made. -/
def unsubscribe_from_domain (mailbox : List Msg) (httpO : Str → Option Nat)
    (smtpO : Str → Bool) (domain : Str) : Bool × List Attempt :=
  match find_unsubscribe_info mailbox domain with
  | none => (false, [])
  | some (urls, mailtos) =>
    let rh := tryHttp httpO urls
    if rh.1 then rh
    else
      let rm := tryMail smtpO mailtos
      (rm.1, rh.2 ++ rm.2)

/-- One row of the domain-analysis CSV as the executor's DictReader sees
it: the three columns `process_csv` reads, plus the stored unsubscribe
URL and mailto columns that the report carries but the executor never
reads. -/
structure CsvRow where
  delete : Str
  listUnsub : Str
  domain : Str
  storedUrls : Str
  storedMailtos : Str
deriving DecidableEq, Repr

/-- The executor's state over a run: the CSV file content, the log of
file writes performed on it (a write would be a list of rows paired with
an outcome column), and `self.processed_domains`. -/
structure ExecState where
  file : List CsvRow
  writes : List (List (CsvRow × Str))
  processedDomains : List Str
deriving DecidableEq, Repr

/-- One iteration of the `process_csv` row loop
(src/unsubscriber.py lines 299-306): a row whose Delete and
List-Unsubscribe cells are the affirmative word (stripped, lowercased)
and whose domain is not yet processed triggers
`unsubscribe_from_domain`; on success the domain joins the processed
set.  No statement of the loop writes the file. -/
def processRow (mailbox : List Msg) (httpO : Str → Option Nat)
    (smtpO : Str → Bool) (es : ExecState) (row : CsvRow) : ExecState :=
  if lowerStr (pyStrip row.delete) = "yes".toList
      ∧ lowerStr (pyStrip row.listUnsub) = "yes".toList
      ∧ row.domain ∉ es.processedDomains then
    if (unsubscribe_from_domain mailbox httpO smtpO row.domain).1 then
      { es with processedDomains := es.processedDomains ++ [row.domain] }
    else es
  else es

/-- `process_csv` (src/unsubscriber.py lines 289-308): after the
row-counting pass and the header skip, the data rows are processed in
order.  The function only reads the file: no write of the CSV (and no
temporary file) exists anywhere in src/unsubscriber.py, so the file
content is threaded through unchanged and the write log stays empty. -/
def process_csv (mailbox : List Msg) (httpO : Str → Option Nat)
    (smtpO : Str → Bool) (rows : List CsvRow) : ExecState :=
  rows.foldl (processRow mailbox httpO smtpO)
    { file := rows, writes := [], processedDomains := [] }

/-! ## The PreviouslySeenSet skip policy, modelled from the spec -/

/-- Modelled from the spec: the ingest-time skip policy of spec section
4.3 step 2 ("if the sender or its resolved domain is present in
PreviouslySeenSet, increment skip counter and return without further
processing").  The scanner variant carrying the PreviouslySeenSet and the
skip counter is not among the files under src/ (src/inboxscanner2.py has
no such set); the check and counter follow the spec's words, the
non-skipped path is the source-derived `scanMessage`. -/
def ingestWithSkip (seen : List Str) (skips : Nat) (st : ScanState)
    (m : Msg) (now : Int) : Nat × ScanState :=
  let sender := m.fromH.getD []
  let d := extract_domain_from_email sender
  if sender ∈ seen ∨ d ∈ seen then (skips + 1, st)
  else (skips, scanMessage st m now)

/-! ## Concrete inputs used by witnesses and counterexamples -/

/-- The specification's walkthrough scenario message: a body inviting the
reader to opt out over an unsubscribe URL, a From header at
shop.example.com and a mailto List-Unsubscribe header. -/
def scenarioMsg : Msg :=
  { fromH := some ("deals@shop.example.com".toList),
    listUnsubscribe := some ("<mailto:remove@shop.example.com>".toList),
    date := some 0,
    bodyParts :=
      [("Please visit https://shop.example.com/unsubscribe?token=abc123 "
          ++ "to opt out").toList] }

/-- A message whose body carries both a classifier keyword and an
unsubscribe URL. -/
def netflixMsg : Msg :=
  { fromH := some ("a@b.com".toList),
    listUnsubscribe := none,
    date := some 5,
    bodyParts := [("netflix: https://x.com/unsubscribe?token=t1 now".toList)] }

/-- A minimal message: one sender, no unsubscribe header, no body. -/
def plainMsg : Msg :=
  { fromH := some ("a@x.com".toList), listUnsubscribe := none,
    date := none, bodyParts := [] }

/-- A second sender at the same domain. -/
def plainMsgB : Msg :=
  { fromH := some ("b@x.com".toList), listUnsubscribe := none,
    date := none, bodyParts := [] }

/-- A mailbox message carrying an HTTP unsubscribe target for x.com. -/
def execMailboxMsg : Msg :=
  { fromH := some ("news@x.com".toList),
    listUnsubscribe := some ("<https://x.com/unsub>".toList),
    date := none, bodyParts := [] }

/-- An action-flagged report row for x.com whose stored-URL column holds
a working unsubscribe URL. -/
def actionRow : CsvRow :=
  { delete := "Yes".toList, listUnsub := "Yes".toList,
    domain := "x.com".toList,
    storedUrls := "https://x.com/unsub".toList, storedMailtos := [] }

/-- An aggregator state with one reportable and one suppressed domain. -/
def demoState : ScanState :=
  [(("x.com".toList),
    { emptyRec with senders := [(("a@x.com".toList), 2)] }),
   (("y.com".toList),
    { emptyRec with senders := [(("b@y.com".toList), 1)] })]

/-- The characters of a plain address local part or domain (the mail
atext subset on which the parseaddr model is checked against CPython:
letters, digits, dot, hyphen, underscore). -/
def addrChars : Str :=
  ("abcdefghijklmnopqrstuvwxyzABCDEFGHIJKLMNOPQRSTUVWXYZ"
    ++ "0123456789._-").toList

/-- The characters of a plain display name: the address characters plus
the space. -/
def displayChars : Str := addrChars ++ [' ']

/-- An HTTP oracle answering status 200 to every fetch. -/
def alwaysOk : Str → Option Nat := fun _ => some 200

/-- An HTTP oracle answering 200 only for the x.com unsubscribe URL. -/
def demoHttpO : Str → Option Nat :=
  fun v => if v = ("https://x.com/unsub".toList) then some 200 else none

/-- An SMTP oracle on which every send fails. -/
def noSmtp : Str → Bool := fun _ => false

/-! ## Association-list and state lemmas -/

theorem alookup_append_of_none {α : Type} (k : Str) (v : α)
    (l : List (Str × α)) (h : alookup k l = none) :
    alookup k (l ++ [(k, v)]) = some v := by
  induction l with
  | nil => simp [alookup]
  | cons kv rest ih =>
    obtain ⟨k0, v0⟩ := kv
    simp only [alookup] at h
    simp only [List.cons_append, alookup]
    by_cases hk : k0 = k
    · rw [if_pos hk] at h; exact absurd h (by simp)
    · rw [if_neg hk] at h ⊢; exact ih h

theorem alookup_updateAssoc {α : Type} (k : Str) (v w : α)
    (l : List (Str × α)) (h : alookup k l = some w) :
    alookup k (updateAssoc k v l) = some v := by
  induction l with
  | nil => simp [alookup] at h
  | cons kv rest ih =>
    obtain ⟨k0, v0⟩ := kv
    simp only [alookup] at h
    simp only [updateAssoc]
    by_cases hk : k0 = k
    · rw [if_pos hk]; simp [alookup, hk]
    · rw [if_neg hk] at h ⊢; simp only [alookup]; rw [if_neg hk]
      exact ih h

theorem getRec_setRec (st : ScanState) (d : Str) (r : DomainRec)
    (d2 : Str) :
    getRec (setRec st d r) d2 = if d = d2 then r else getRec st d2 := by
  induction st with
  | nil =>
    by_cases h : d = d2 <;> simp [setRec, getRec, alookup, h]
  | cons kv rest ih =>
    obtain ⟨k, v⟩ := kv
    simp only [setRec]
    by_cases hkd : k = d
    · subst hkd
      rw [if_pos rfl]
      by_cases h : k = d2 <;> simp [getRec, alookup, h]
    · rw [if_neg hkd]
      by_cases h : k = d2
      · subst h
        have hd : ¬ d = k := fun hh => hkd hh.symm
        simp [getRec, alookup, hd]
      · simp only [getRec, alookup]
        rw [if_neg h, if_neg h]
        exact ih

/-- What `_process_unsubscribe_url` leaves under the URL key: a fresh
entry takes the given timestamp and token, an existing entry survives
unless the new timestamp is strictly later. -/
theorem pud_lookup (st : ScanState) (url service : Str) (ts : Int) :
    alookup url (getRec (process_unsubscribe_url st url service ts)
        (extract_domain_from_email service)).unsubscribe_data =
      match alookup url
          (getRec st (extract_domain_from_email service)).unsubscribe_data
        with
      | none => some (ts, (extractTokens url).head?)
      | some (t0, p) =>
        if t0 < ts then some (ts, (extractTokens url).head?)
        else some (t0, p) := by
  unfold process_unsubscribe_url
  rw [getRec_setRec]
  rw [if_pos rfl]
  cases h : alookup url
      (getRec st (extract_domain_from_email service)).unsubscribe_data with
  | none => simpa [h] using alookup_append_of_none _ _ _ h
  | some tp =>
    obtain ⟨t0, p⟩ := tp
    simp only [h]
    by_cases hlt : t0 < ts
    · rw [if_pos hlt, if_pos hlt]
      exact alookup_updateAssoc _ _ _ _ h
    · rw [if_neg hlt, if_neg hlt]
      exact h

/-! ## Claim theorems -/

/-- C6: for every domain and URL, ingesting the same unsubscribe URL twice
with timestamps T1 < T2, in either ingestion order, leaves the stored
(timestamp, token) pair associated with T2; an already-present candidate
is replaced only when the new timestamp is strictly later, so equal
timestamps keep the existing entry. -/
theorem c6_keep_newest (st : ScanState) (url service : Str) (t1 t2 : Int)
    (hlt : t1 < t2)
    (hfresh : alookup url (getRec st
      (extract_domain_from_email service)).unsubscribe_data = none) :
    (alookup url (getRec
        (process_unsubscribe_url (process_unsubscribe_url st url service t1)
          url service t2)
        (extract_domain_from_email service)).unsubscribe_data
      = some (t2, (extractTokens url).head?))
    ∧ (alookup url (getRec
        (process_unsubscribe_url (process_unsubscribe_url st url service t2)
          url service t1)
        (extract_domain_from_email service)).unsubscribe_data
      = some (t2, (extractTokens url).head?))
    ∧ (∀ (st2 : ScanState) (t0 t : Int) (p : Option Str),
        alookup url (getRec st2
          (extract_domain_from_email service)).unsubscribe_data
          = some (t0, p) →
        ¬ t0 < t →
        alookup url (getRec (process_unsubscribe_url st2 url service t)
          (extract_domain_from_email service)).unsubscribe_data
          = some (t0, p)) := by
  have h1 : alookup url (getRec
      (process_unsubscribe_url st url service t1)
      (extract_domain_from_email service)).unsubscribe_data
      = some (t1, (extractTokens url).head?) := by
    rw [pud_lookup, hfresh]
  have h1b : alookup url (getRec
      (process_unsubscribe_url st url service t2)
      (extract_domain_from_email service)).unsubscribe_data
      = some (t2, (extractTokens url).head?) := by
    rw [pud_lookup, hfresh]
  refine ⟨?_, ?_, ?_⟩
  · rw [pud_lookup, h1]
    simp only [if_pos hlt]
  · rw [pud_lookup, h1b]
    have hnot : ¬ t2 < t1 := by omega
    simp only [if_neg hnot]
  · intro st2 t0 t p hsome hnot
    rw [pud_lookup, hsome]
    simp only [if_neg hnot]

/-- C6 witness: the keep-newest rule at a concrete state, URL and pair of
timestamps. -/
theorem c6_keep_newest_witness :
    ((0 : Int) < 1
      ∧ alookup ("https://x.com/u?token=ab".toList) (getRec []
          (extract_domain_from_email ("a@x.com".toList))).unsubscribe_data
        = none)
    ∧ alookup ("https://x.com/u?token=ab".toList) (getRec
        (process_unsubscribe_url
          (process_unsubscribe_url [] ("https://x.com/u?token=ab".toList)
            ("a@x.com".toList) 0)
          ("https://x.com/u?token=ab".toList) ("a@x.com".toList) 1)
        (extract_domain_from_email ("a@x.com".toList))).unsubscribe_data
      = some (1, (extractTokens ("https://x.com/u?token=ab".toList)).head?) :=
  ⟨⟨by decide, by decide⟩,
   (c6_keep_newest [] ("https://x.com/u?token=ab".toList)
     ("a@x.com".toList) 0 1 (by decide) (by decide)).1⟩

/-- C5 (modelled from the spec): a message whose sender or resolved
domain is in the PreviouslySeenSet increments the skip counter and leaves
every aggregate of every DomainRecord unchanged. -/
theorem c5_skip_frame (seen : List Str) (skips : Nat) (st : ScanState)
    (m : Msg) (now : Int)
    (h : m.fromH.getD [] ∈ seen
      ∨ extract_domain_from_email (m.fromH.getD []) ∈ seen) :
    (ingestWithSkip seen skips st m now).1 = skips + 1
    ∧ ∀ d, getRec (ingestWithSkip seen skips st m now).2 d = getRec st d := by
  simp only [ingestWithSkip]
  rw [if_pos h]
  exact ⟨rfl, fun d => rfl⟩

/-- C5 witness: a seen-set holding the domain x.com skips a message from
a@x.com without touching the x.com record. -/
theorem c5_skip_frame_witness :
    (plainMsg.fromH.getD [] ∈ [("x.com".toList)]
      ∨ extract_domain_from_email (plainMsg.fromH.getD [])
        ∈ [("x.com".toList)])
    ∧ (ingestWithSkip [("x.com".toList)] 0 demoState plainMsg 0).1 = 0 + 1
    ∧ ∀ d, getRec (ingestWithSkip [("x.com".toList)] 0 demoState
        plainMsg 0).2 d = getRec demoState d :=
  ⟨by decide,
   c5_skip_frame [("x.com".toList)] 0 demoState plainMsg 0 (by decide)⟩

/-- C1 (code bug evaluation): scanning a single message From a@x.com
records a total email count of 2 for x.com, and two messages from the
same domain record 4: `scan_emails` calls `_process_sender` and then
`_process_content`, which repeats `_process_sender` on the same header,
so each message contributes two sender occurrences instead of the one the
claim and the specification describe. -/
theorem c1_double_count_eval :
    totalEmails (getRec (scanMessage [] plainMsg 0) ("x.com".toList)) = 2
    ∧ totalEmails (getRec (scanMessages [plainMsg, plainMsgB] 0)
        ("x.com".toList)) = 4 := by
  constructor <;> decide

/-! ## Frame lemmas for the unsubscribe-candidates mapping -/

theorem process_sender_data (st : ScanState) (f : Str) (d : Str) :
    (getRec (process_sender st f) d).unsubscribe_data
      = (getRec st d).unsubscribe_data := by
  unfold process_sender
  rw [getRec_setRec]
  by_cases h : extract_domain_from_email f = d
  · rw [if_pos h, ← h]
  · rw [if_neg h]

theorem store_unsubscribe_info_data (st : ScanState) (header : Str)
    (dd : Str) (d : Str) :
    (getRec (store_unsubscribe_info st header dd) d).unsubscribe_data
      = (getRec st d).unsubscribe_data := by
  unfold store_unsubscribe_info
  rw [getRec_setRec]
  by_cases h : dd = d
  · rw [if_pos h, ← h]
  · rw [if_neg h]

theorem setFlags_data (st : ScanState) (dd : Str) (h : Str) (d : Str) :
    (getRec (setRec st dd
      { getRec st dd with list_unsubscribe := true,
                          last_unsubscribe_header := some h })
      d).unsubscribe_data = (getRec st d).unsubscribe_data := by
  rw [getRec_setRec]
  by_cases hd : dd = d
  · rw [if_pos hd, ← hd]
  · rw [if_neg hd]

theorem headerBlock_data (st : ScanState) (m : Msg) (d : Str) :
    (getRec (headerBlock st m) d).unsubscribe_data
      = (getRec st d).unsubscribe_data := by
  unfold headerBlock
  by_cases hf : m.fromH.getD [] = []
  · rw [if_pos hf]
  · rw [if_neg hf]
    by_cases hh : m.listUnsubscribe.getD [] = []
    · rw [if_pos hh]
      exact process_sender_data st _ d
    · rw [if_neg hh]
      rw [store_unsubscribe_info_data, setFlags_data]
      exact process_sender_data st _ d

theorem process_content_data (st : ScanState) (m : Msg) (now : Int)
    (hb : ∀ part ∈ m.bodyParts, find_accounts part = []) (d : Str) :
    (getRec (process_content st m now) d).unsubscribe_data
      = (getRec st d).unsubscribe_data := by
  unfold process_content
  have hfold : ∀ (parts : List Str) (s : ScanState),
      (∀ part ∈ parts, find_accounts part = []) →
      (getRec (parts.foldl (contentStep m now) s) d).unsubscribe_data
        = (getRec s d).unsubscribe_data := by
    intro parts
    induction parts with
    | nil => intro s _; rfl
    | cons p ps ih =>
      intro s hp
      have hstep : contentStep m now s p = s := by
        unfold contentStep
        split
        · rfl
        · rw [hp p (List.mem_cons_self p ps)]
          rfl
      rw [List.foldl_cons, hstep]
      exact ih s (fun q hq => hp q (List.mem_cons_of_mem _ hq))
  rw [hfold m.bodyParts (headerBlock st m) hb, headerBlock_data]

/-- C2 counterexample: the specification's own scenario message (From
deals@shop.example.com, body carrying the unsubscribe URL with token
abc123, mailto List-Unsubscribe header) leaves both the
unsubscribeCandidates mapping and the unsubscribeUrls set of
shop.example.com empty, because its body matches no classifier keyword —
while the body does contain an unsubscribe candidate, as the third
conjunct shows.  The claim says the candidate is merged independently of
any classifier match. -/
theorem c2_counterexample :
    (getRec (scanMessage [] scenarioMsg 0)
      ("shop.example.com".toList)).unsubscribe_data = []
    ∧ (getRec (scanMessage [] scenarioMsg 0)
      ("shop.example.com".toList)).unsubscribe_urls = []
    ∧ bodyUnsubMatches (scenarioMsg.bodyParts.headD [])
      = [("https://shop.example.com/unsubscribe?token=abc123".toList)] :=
  ⟨by decide, by decide, by decide⟩

/-- C2 (amended): unsubscribe candidates found in a message body are
merged only when at least one classifier keyword matched the containing
body part, and then under the matched service token's resolved domain
rather than the sending domain; when no part matches any keyword, no
domain's unsubscribeCandidates mapping changes at all.  The second and
third conjuncts exhibit the service-domain attribution: a body matching
the keyword netflix stores its unsubscribe URL (with token and message
timestamp) under the domain resolved from the token netflix, not under
the sender's domain b.com. -/
theorem c2_amended (st : ScanState) (m : Msg) (now : Int)
    (hb : ∀ part ∈ m.bodyParts, find_accounts part = []) :
    (∀ d, (getRec (scanMessage st m now) d).unsubscribe_data
      = (getRec st d).unsubscribe_data)
    ∧ (getRec (scanMessage [] netflixMsg 0)
        ("netflix".toList)).unsubscribe_data
      = [(("https://x.com/unsubscribe?token=t1".toList),
          (5, some ("t1".toList)))]
    ∧ (getRec (scanMessage [] netflixMsg 0)
        ("b.com".toList)).unsubscribe_data = [] := by
  refine ⟨?_, by decide, by decide⟩
  intro d
  unfold scanMessage
  rw [process_content_data _ _ _ hb, headerBlock_data]

/-- C2 witness: the amended frame property applied to the scenario
message over a nonempty aggregator state. -/
theorem c2_amended_witness :
    (∀ part ∈ scenarioMsg.bodyParts, find_accounts part = [])
    ∧ (getRec (scanMessage demoState scenarioMsg 0)
        ("shop.example.com".toList)).unsubscribe_data
      = (getRec demoState ("shop.example.com".toList)).unsubscribe_data :=
  ⟨by decide,
   (c2_amended demoState scenarioMsg 0 (by decide)).1
     ("shop.example.com".toList)⟩

/-! ## C3: the executor performs no rewrite of the CSV -/

theorem processRow_frame (mailbox : List Msg) (httpO : Str → Option Nat)
    (smtpO : Str → Bool) (es : ExecState) (row : CsvRow) :
    (processRow mailbox httpO smtpO es row).file = es.file
    ∧ (processRow mailbox httpO smtpO es row).writes = es.writes := by
  unfold processRow
  split
  · split
    · exact ⟨rfl, rfl⟩
    · exact ⟨rfl, rfl⟩
  · exact ⟨rfl, rfl⟩

/-- C3 counterexample: a concrete action-eligible CSV over an
always-succeeding HTTP oracle is acted on (the domain enters the
processed set) yet no file write happens: the write log stays empty and
the file content is identical to the input, with no Status column, no
temporary file and no move.  The claim says the executor rewrites the
full tabular input with an added Status column through a
write-to-a-temporary-location-then-move. -/
theorem c3_counterexample :
    (process_csv [execMailboxMsg] alwaysOk noSmtp [actionRow]).writes = []
    ∧ (process_csv [execMailboxMsg] alwaysOk noSmtp [actionRow]).file
      = [actionRow]
    ∧ (process_csv [execMailboxMsg] alwaysOk noSmtp
        [actionRow]).processedDomains = [("x.com".toList)] :=
  ⟨by decide, by decide, by decide⟩

/-- C3 (amended): the executor does not rewrite the tabular input at all.
`process_csv` only reads the rows and records outcomes in its
processed-domains set and log; on every input and every oracle behaviour
the file content is left byte-for-byte intact (so trivially never
truncated or partially written) and the write log is empty: no Status
column and no temporary file exist anywhere in the code. -/
theorem c3_amended (mailbox : List Msg) (httpO : Str → Option Nat)
    (smtpO : Str → Bool) (rows : List CsvRow) :
    (process_csv mailbox httpO smtpO rows).file = rows
    ∧ (process_csv mailbox httpO smtpO rows).writes = [] := by
  unfold process_csv
  have h : ∀ (l : List CsvRow) (es : ExecState),
      (l.foldl (processRow mailbox httpO smtpO) es).file = es.file
      ∧ (l.foldl (processRow mailbox httpO smtpO) es).writes = es.writes := by
    intro l
    induction l with
    | nil => intro es; exact ⟨rfl, rfl⟩
    | cons r rs ih =>
      intro es
      rw [List.foldl_cons]
      have hr := processRow_frame mailbox httpO smtpO es r
      obtain ⟨h1, h2⟩ := ih (processRow mailbox httpO smtpO es r)
      exact ⟨h1.trans hr.1, h2.trans hr.2⟩
  exact ⟨(h rows _).1, (h rows _).2⟩

/-! ## C4: HTTP before mailto, on mailbox-derived targets -/

theorem tryHttp_first_success (httpO : Str → Option Nat) :
    ∀ (urls : List Str), (∃ u ∈ urls, httpO u = some 200) →
    ∃ pre u post, urls = pre ++ u :: post
      ∧ (∀ v ∈ pre, httpO v ≠ some 200)
      ∧ httpO u = some 200
      ∧ tryHttp httpO urls = (true, (pre ++ [u]).map Attempt.httpGet) := by
  intro urls
  induction urls with
  | nil =>
    rintro ⟨u, hu, _⟩
    simp at hu
  | cons a rest ih =>
    rintro ⟨u, hu, h200⟩
    by_cases ha : httpO a = some 200
    · exact ⟨[], a, rest, rfl, by simp, ha, by simp [tryHttp, ha]⟩
    · have hrest : ∃ v ∈ rest, httpO v = some 200 := by
        rcases List.mem_cons.mp hu with h | h
        · exact absurd (h ▸ h200) ha
        · exact ⟨u, h, h200⟩
      obtain ⟨pre, u2, post, heq, hpre, h2, htry⟩ := ih hrest
      refine ⟨a :: pre, u2, post, by rw [heq]; rfl, ?_, h2, ?_⟩
      · intro v hv
        rcases List.mem_cons.mp hv with h | h
        · exact h ▸ ha
        · exact hpre v h
      · simp only [tryHttp, if_neg ha, htry]
        rfl

/-- C4 counterexample: an action-eligible row whose stored-URL column
holds a URL that the HTTP oracle answers with status 200, over an empty
mailbox.  The executor never reads the row's stored URLs — it re-searches
the mailbox — so it makes no attempt at all and fails, and the domain
never enters the processed set, although every fetch of the stored URL
would have returned 200.  The claim predicts success through the stored
HTTP URL. -/
theorem c4_counterexample :
    actionRow.storedUrls = ("https://x.com/unsub".toList)
    ∧ alwaysOk actionRow.storedUrls = some 200
    ∧ unsubscribe_from_domain [] alwaysOk noSmtp actionRow.domain
      = (false, [])
    ∧ (process_csv [] alwaysOk noSmtp [actionRow]).processedDomains = [] :=
  ⟨by decide, by decide, by decide, by decide⟩

/-- C4 (amended): the executor derives its targets by re-searching the
mailbox for the domain's most recent matching List-Unsubscribe header
(ignoring the row's stored URL columns); among those targets it attempts
the HTTP URLs first, in listed order, treating status 200 as success, and
attempts mailto targets only if no HTTP attempt succeeded; once a method
succeeds nothing further is tried.  Concretely: when some extracted URL
answers 200, the run succeeds, no mail is ever sent, and the attempt list
is exactly the URL prefix up to and including the first URL answering
200. -/
theorem c4_amended (mailbox : List Msg) (httpO : Str → Option Nat)
    (smtpO : Str → Bool) (domain : Str) (urls mailtos : List Str)
    (hfind : find_unsubscribe_info mailbox domain = some (urls, mailtos))
    (hex : ∃ u ∈ urls, httpO u = some 200) :
    (unsubscribe_from_domain mailbox httpO smtpO domain).1 = true
    ∧ (∀ a ∈ (unsubscribe_from_domain mailbox httpO smtpO domain).2,
        ∀ addr, a ≠ Attempt.mailSend addr)
    ∧ ∃ pre u post, urls = pre ++ u :: post
        ∧ (∀ v ∈ pre, httpO v ≠ some 200) ∧ httpO u = some 200
        ∧ (unsubscribe_from_domain mailbox httpO smtpO domain).2
          = (pre ++ [u]).map Attempt.httpGet := by
  obtain ⟨pre, u, post, heq, hpre, h200, htry⟩ :=
    tryHttp_first_success httpO urls hex
  have hudr : unsubscribe_from_domain mailbox httpO smtpO domain
      = (true, (pre ++ [u]).map Attempt.httpGet) := by
    unfold unsubscribe_from_domain
    rw [hfind]
    simp only [htry]
    simp
  refine ⟨by rw [hudr], ?_, pre, u, post, heq, hpre, h200, by rw [hudr]⟩
  intro a ha addr
  rw [hudr] at ha
  obtain ⟨v, _, hv⟩ := List.mem_map.mp ha
  rw [← hv]
  intro hcontra
  cases hcontra

/-- C4 witness: the amended priority property at a concrete mailbox whose
List-Unsubscribe header carries one working HTTP URL. -/
theorem c4_amended_witness :
    (find_unsubscribe_info [execMailboxMsg] ("x.com".toList)
      = some ([("https://x.com/unsub".toList)], [])
      ∧ ∃ u ∈ [("https://x.com/unsub".toList)], demoHttpO u = some 200)
    ∧ (unsubscribe_from_domain [execMailboxMsg] demoHttpO noSmtp
        ("x.com".toList)).1 = true :=
  ⟨⟨by decide, ("https://x.com/unsub".toList), by decide, by decide⟩,
   (c4_amended [execMailboxMsg] demoHttpO noSmtp ("x.com".toList)
     [("https://x.com/unsub".toList)] [] (by decide)
     ⟨("https://x.com/unsub".toList), by decide, by decide⟩).1⟩

/-! ## C7: report membership threshold -/

theorem countP_filterMap {α β : Type} (f : α → Option β) (p : β → Bool)
    (l : List α) :
    (l.filterMap f).countP p
      = l.countP (fun a => ((f a).map p).getD false) := by
  induction l with
  | nil => rfl
  | cons a rest ih =>
    cases hf : f a with
    | none => simp [List.filterMap_cons, hf, List.countP_cons, ih]
    | some b => simp [List.filterMap_cons, hf, List.countP_cons, ih]

theorem mkRow_domain (k : Str) (v : DomainRec) : (mkRow k v).domain = k :=
  rfl

theorem countQ_eq (d : Str) : ∀ (l : List (Str × DomainRec)),
    (l.map Prod.fst).Nodup →
    l.countP (fun p => ((if totalEmails p.2 < 2 then none
        else some (mkRow p.1 p.2)).map
          (fun row => decide (row.domain = d))).getD false)
      = if 2 ≤ totalEmails ((alookup d l).getD emptyRec) then 1 else 0 := by
  intro l
  induction l with
  | nil =>
    intro _
    simp [alookup, totalEmails, emptyRec]
  | cons kv rest ih =>
    intro hnd
    obtain ⟨k, v⟩ := kv
    rw [List.map_cons, List.nodup_cons] at hnd
    obtain ⟨hk, hrest⟩ := hnd
    rw [List.countP_cons]
    by_cases hkd : k = d
    · subst hkd
      have hz : rest.countP (fun p => ((if totalEmails p.2 < 2 then none
          else some (mkRow p.1 p.2)).map
            (fun row => decide (row.domain = k))).getD false) = 0 := by
        rw [List.countP_eq_zero]
        intro a ha
        have hne : a.1 ≠ k := by
          intro hcontra
          have hmem : a.1 ∈ rest.map Prod.fst :=
            List.mem_map_of_mem Prod.fst ha
          exact hk (hcontra ▸ hmem)
        by_cases hlt : totalEmails a.2 < 2
        · simp [hlt]
        · simp [hlt, mkRow_domain, hne]
      rw [hz]
      by_cases hlt : totalEmails v < 2
      · have h2 : ¬ 2 ≤ totalEmails v := by omega
        rw [if_pos hlt]
        simp [alookup, h2]
      · have h2 : 2 ≤ totalEmails v := by omega
        rw [if_neg hlt]
        simp [alookup, h2, mkRow_domain]
    · have hq : ((if totalEmails v < 2 then none
          else some (mkRow k v)).map
            (fun row => decide (row.domain = d))).getD false = false := by
        by_cases hlt : totalEmails v < 2
        · simp [hlt]
        · simp [hlt, mkRow_domain, hkd]
      rw [hq]
      simp only [alookup, if_neg hkd]
      rw [ih hrest]
      simp

/-- C7: a domain appears in the written report exactly when the sum of
its per-sender occurrence counts is at least two, and then it contributes
exactly one row (stated as: the number of report rows carrying the domain
is one when the total is at least two and zero otherwise, over any
aggregator state whose domain keys are distinct, as the dict that builds
them guarantees). -/
theorem c7_report_threshold (st : ScanState) (d : Str)
    (hnd : (st.map Prod.fst).Nodup) :
    ((reportRows st).filter (fun row => decide (row.domain = d))).length
      = if 2 ≤ totalEmails (getRec st d) then 1 else 0 := by
  unfold reportRows getRec
  rw [← List.countP_eq_length_filter]
  rw [countP_filterMap]
  have hperm : (st.insertionSort (fun a b => strLe a.1 b.1 = true)).Perm st :=
    List.perm_insertionSort _ _
  rw [hperm.countP_eq]
  exact countQ_eq d st hnd

/-- C7 witness: over the concrete two-domain state, x.com (total 2) is
counted exactly once among the report rows. -/
theorem c7_report_threshold_witness :
    (demoState.map Prod.fst).Nodup
    ∧ ((reportRows demoState).filter
        (fun row => decide (row.domain = ("x.com".toList)))).length
      = if 2 ≤ totalEmails (getRec demoState ("x.com".toList)) then 1
        else 0 :=
  ⟨by decide, c7_report_threshold demoState ("x.com".toList) (by decide)⟩

/-! ## C8: domain resolution on well-formed From headers -/

theorem afterFirst_eq_none (c : Char) (s : Str) (h : ∀ x ∈ s, x ≠ c) :
    afterFirst c s = none := by
  induction s with
  | nil => rfl
  | cons a rest ih =>
    simp only [afterFirst]
    rw [if_neg (h a (List.mem_cons_self a rest))]
    exact ih (fun x hx => h x (List.mem_cons_of_mem a hx))

theorem afterFirst_append_eq (c : Char) (xs ys : Str)
    (h : ∀ x ∈ xs, x ≠ c) :
    afterFirst c (xs ++ c :: ys) = some ys := by
  induction xs with
  | nil => simp [afterFirst]
  | cons a rest ih =>
    simp only [List.cons_append, afterFirst]
    rw [if_neg (h a (List.mem_cons_self a rest))]
    exact ih (fun x hx => h x (List.mem_cons_of_mem a hx))

theorem takeUntil_eq_self (c : Char) (s : Str) (h : ∀ x ∈ s, x ≠ c) :
    takeUntil c s = s := by
  induction s with
  | nil => rfl
  | cons a rest ih =>
    simp only [takeUntil]
    rw [if_neg (h a (List.mem_cons_self a rest))]
    rw [ih (fun x hx => h x (List.mem_cons_of_mem a hx))]

theorem takeUntil_append_eq (c : Char) (xs ys : Str)
    (h : ∀ x ∈ xs, x ≠ c) :
    takeUntil c (xs ++ c :: ys) = xs := by
  induction xs with
  | nil => simp [takeUntil]
  | cons a rest ih =>
    simp only [List.cons_append, takeUntil]
    rw [if_neg (h a (List.mem_cons_self a rest))]
    exact congrArg (fun t => a :: t)
      (ih (fun x hx => h x (List.mem_cons_of_mem a hx)))

theorem dropWhileB_eq_self (p : Char → Bool) (s : Str)
    (h : ∀ x ∈ s, p x = false) : dropWhileB p s = s := by
  cases s with
  | nil => rfl
  | cons a rest =>
    simp only [dropWhileB]
    rw [h a (List.mem_cons_self a rest)]
    simp

theorem pyStrip_eq_self (s : Str) (h : ∀ x ∈ s, pySpace x = false) :
    pyStrip s = s := by
  unfold pyStrip
  rw [dropWhileB_eq_self _ _ h]
  rw [dropWhileB_eq_self _ _
    (fun x hx => h x (List.mem_reverse.mp hx))]
  exact List.reverse_reverse s

theorem containsSub_singleton_of_mem (c : Char) (s : Str) (h : c ∈ s) :
    containsSub [c] s = true := by
  induction s with
  | nil => cases h
  | cons a rest ih =>
    rcases List.mem_cons.mp h with h1 | h1
    · simp [containsSub, startsWith, h1]
    · simp [containsSub, ih h1]

/-- Domain resolution once the parseaddr model has produced a plain
`local@domain` address over the address character set: the parseaddr
branch fires and yields the lowercased domain part. -/
theorem extract_core (l d s : Str)
    (hl : ∀ ch ∈ l, ch ∈ addrChars) (hd : ∀ ch ∈ d, ch ∈ addrChars)
    (haddr : parseaddrAddr s = l ++ '@' :: d) :
    extract_domain_from_email s = lowerStr d := by
  have hat : ∀ ch ∈ addrChars, ch ≠ '@' := by decide
  simp only [extract_domain_from_email, haddr]
  have hc : containsSub ['@'] (l ++ '@' :: d) = true :=
    containsSub_singleton_of_mem _ _ (by simp)
  rw [if_pos hc]
  rw [afterFirst_append_eq '@' l d (fun x hx => hat x (hl x hx))]
  simp only [Option.getD_some]
  rw [takeUntil_eq_self '@' d (fun x hx => hat x (hd x hx))]

/-- C8: for a sender string carrying an `@domain` address — bare, or
surrounded by arbitrary display-name text and angle brackets — domain
resolution returns the lowercased part after the at-sign, through the
first (parseaddr) stage of the fixed fallback chain.  The address parts
range over the address character set and the display name over the
display character set, the class on which the parseaddr model is faithful
to CPython. -/
theorem c8_domain_resolution (name l d : Str)
    (hn : ∀ ch ∈ name, ch ∈ displayChars)
    (hl1 : l ≠ []) (hl : ∀ ch ∈ l, ch ∈ addrChars)
    (hd1 : d ≠ []) (hd : ∀ ch ∈ d, ch ∈ addrChars) :
    extract_domain_from_email (l ++ '@' :: d) = lowerStr d
    ∧ extract_domain_from_email (name ++ '<' :: (l ++ '@' :: (d ++ ['>'])))
      = lowerStr d := by
  have hA : ∀ ch ∈ addrChars,
      ch ≠ '<' ∧ ch ≠ '>' ∧ ch ≠ '@' ∧ pySpace ch = false := by decide
  have hD : ∀ ch ∈ displayChars, ch ≠ '<' := by decide
  constructor
  · apply extract_core l d _ hl hd
    have h1 : afterFirst '<' (l ++ '@' :: d) = none := by
      apply afterFirst_eq_none
      intro x hx
      rcases List.mem_append.mp hx with h | h
      · exact (hA x (hl x h)).1
      · rcases List.mem_cons.mp h with h2 | h2
        · rw [h2]; decide
        · exact (hA x (hd x h2)).1
    simp only [parseaddrAddr, h1]
    apply pyStrip_eq_self
    intro x hx
    rcases List.mem_append.mp hx with h | h
    · exact (hA x (hl x h)).2.2.2
    · rcases List.mem_cons.mp h with h2 | h2
      · rw [h2]; decide
      · exact (hA x (hd x h2)).2.2.2
  · apply extract_core l d _ hl hd
    have h1 : afterFirst '<' (name ++ '<' :: (l ++ '@' :: (d ++ ['>'])))
        = some (l ++ '@' :: (d ++ ['>'])) :=
      afterFirst_append_eq _ _ _ (fun x hx => hD x (hn x hx))
    simp only [parseaddrAddr, h1]
    have hassoc : l ++ '@' :: (d ++ ['>']) = (l ++ '@' :: d) ++ '>' :: [] :=
      by simp
    rw [hassoc]
    apply takeUntil_append_eq
    intro x hx
    rcases List.mem_append.mp hx with h | h
    · exact (hA x (hl x h)).2.1
    · rcases List.mem_cons.mp h with h2 | h2
      · rw [h2]; decide
      · exact (hA x (hd x h2)).2.1

/-- C8 witness: a display name around a mixed-case address resolves to
the lowercased domain. -/
theorem c8_domain_resolution_witness :
    ((∀ ch ∈ ("Promo Deals ".toList), ch ∈ displayChars)
      ∧ ("Deals".toList : Str) ≠ []
      ∧ (∀ ch ∈ ("Deals".toList), ch ∈ addrChars)
      ∧ ("Shop.Example.COM".toList : Str) ≠ []
      ∧ (∀ ch ∈ ("Shop.Example.COM".toList), ch ∈ addrChars))
    ∧ extract_domain_from_email (("Promo Deals ".toList)
        ++ '<' :: (("Deals".toList)
          ++ '@' :: (("Shop.Example.COM".toList) ++ ['>'])))
      = lowerStr ("Shop.Example.COM".toList) :=
  ⟨⟨by decide, by decide, by decide, by decide, by decide⟩,
   (c8_domain_resolution ("Promo Deals ".toList) ("Deals".toList)
     ("Shop.Example.COM".toList) (by decide) (by decide) (by decide)
     (by decide) (by decide)).2⟩

/-! ## C9: clean_url on plain and encoded text -/

theorem replaceAllF_head_not_mem (pat rep : Str) (h0 : Char)
    (hph : pat.head? = some h0) :
    ∀ (fuel : Nat) (s : Str), h0 ∉ s → replaceAllF pat rep fuel s = s := by
  obtain ⟨p0, ps, rfl⟩ : ∃ p0 ps, pat = p0 :: ps := by
    cases pat with
    | nil => simp at hph
    | cons a b => exact ⟨a, b, rfl⟩
  have hp0 : p0 = h0 := by simpa using hph
  subst hp0
  intro fuel
  induction fuel with
  | zero => intro s _; cases s <;> rfl
  | succ n ih =>
    intro s hs
    cases s with
    | nil => rfl
    | cons c rest =>
      have hneq : ¬ ((p0 :: ps : Str) ≠ []
          ∧ startsWith (p0 :: ps) (c :: rest) = true) := by
        rintro ⟨-, hsw⟩
        have hpc : p0 = c := by
          by_contra hne
          simp [startsWith, hne] at hsw
        apply hs
        rw [hpc]
        exact List.mem_cons_self c rest
      simp only [replaceAllF]
      rw [if_neg hneq]
      exact congrArg (fun t => c :: t)
        (ih rest (fun hm => hs (List.mem_cons_of_mem c hm)))

theorem replaceAll_head_not_mem (pat rep s : Str) (h0 : Char)
    (hph : pat.head? = some h0) (hs : h0 ∉ s) :
    replaceAll pat rep s = s :=
  replaceAllF_head_not_mem pat rep h0 hph s.length s hs

theorem pyUnquote_cons_ne (c : Char) (rest : Str) (hc : ¬ c = '%') :
    pyUnquote (c :: rest) = c :: pyUnquote rest := by
  cases rest with
  | nil => simp [pyUnquote, hc]
  | cons a rest2 =>
    cases rest2 with
    | nil => simp [pyUnquote, hc]
    | cons b rest3 => simp [pyUnquote, hc]

theorem pyUnquote_eq_self (s : Str) (h : '%' ∉ s) : pyUnquote s = s := by
  induction s with
  | nil => rfl
  | cons c rest ih =>
    have hc : ¬ c = '%' := by
      intro hce
      apply h
      rw [← hce]
      exact List.mem_cons_self c rest
    rw [pyUnquote_cons_ne c rest hc]
    exact congrArg (fun t => c :: t)
      (ih (fun hm => h (List.mem_cons_of_mem c hm)))

/-- C9 counterexample: the unsubscribe-target decoding is not idempotent.
On the five-character input percent-3D-2E, one application only
percent-decodes (no equals-escape is present yet) and yields the
equals-2E digraph; a second application decodes that digraph to a dot, so
applying the function twice differs from applying it once. -/
theorem c9_counterexample :
    clean_url ("%3D2E".toList) = ("=2E".toList)
    ∧ clean_url (clean_url ("%3D2E".toList)) = (".".toList)
    ∧ clean_url (clean_url ("%3D2E".toList)) ≠ clean_url ("%3D2E".toList) :=
  ⟨by decide, by decide, by decide⟩

/-- C9 (amended): on already-plain text — text containing neither an
equals sign nor a percent sign, so no escape digraph and no
percent-encoding — clean_url is the identity (and hence idempotent
there); full idempotence fails because percent-decoding can manufacture
new equals-escape digraphs for the next application, as the
counterexample shows. -/
theorem c9_amended (s : Str) (h : ∀ ch ∈ s, ch ≠ '=' ∧ ch ≠ '%') :
    clean_url s = s := by
  have he : '=' ∉ s := fun hm => ((h _ hm).1 rfl)
  have hp : '%' ∉ s := fun hm => ((h _ hm).2 rfl)
  simp only [clean_url]
  rw [replaceAll_head_not_mem _ _ _ '=' (by decide) he]
  rw [replaceAll_head_not_mem _ _ _ '=' (by decide) he]
  rw [replaceAll_head_not_mem _ _ _ '=' (by decide) he]
  rw [replaceAll_head_not_mem _ _ _ '=' (by decide) he]
  rw [replaceAll_head_not_mem _ _ _ '=' (by decide) he]
  rw [replaceAll_head_not_mem _ _ _ '=' (by decide) he]
  rw [replaceAll_head_not_mem _ _ _ '=' (by decide) he]
  rw [replaceAll_head_not_mem _ _ _ '=' (by decide) he]
  rw [replaceAll_head_not_mem _ _ _ '=' (by decide) he]
  exact pyUnquote_eq_self s hp

/-- C9 witness: a plain URL passes through clean_url unchanged. -/
theorem c9_amended_witness :
    (∀ ch ∈ ("https://x.com/unsub".toList), ch ≠ '=' ∧ ch ≠ '%')
    ∧ clean_url ("https://x.com/unsub".toList)
      = ("https://x.com/unsub".toList) :=
  ⟨by decide, c9_amended ("https://x.com/unsub".toList) (by decide)⟩

/-! ## C10: keyword classification -/

theorem firstMatch_some (alts : List Str) (s : Str) (k : Str)
    (h : firstMatch alts s = some k) : k ∈ alts ∧ startsWith k s = true := by
  induction alts with
  | nil => simp [firstMatch] at h
  | cons a rest ih =>
    simp only [firstMatch] at h
    split at h
    · next hsw =>
      obtain rfl : a = k := by simpa using h
      exact ⟨List.mem_cons_self a rest, hsw⟩
    · obtain ⟨h1, h2⟩ := ih h
      exact ⟨List.mem_cons_of_mem a h1, h2⟩

theorem firstMatch_none (alts : List Str) (s : Str)
    (h : firstMatch alts s = none) :
    ∀ a ∈ alts, startsWith a s = false := by
  induction alts with
  | nil => intro a ha; cases ha
  | cons b rest ih =>
    simp only [firstMatch] at h
    split at h
    · exact absurd h (by simp)
    · next hsw =>
      intro a ha
      rcases List.mem_cons.mp ha with h1 | h1
      · rw [h1]
        cases hcc : startsWith b s with
        | false => rfl
        | true => exact absurd hcc hsw
      · exact ih h a h1

theorem containsSub_of_startsWith (pat s : Str)
    (h : startsWith pat s = true) : containsSub pat s = true := by
  cases s with
  | nil =>
    cases pat with
    | nil => rfl
    | cons a b => simp [startsWith] at h
  | cons c rest => simp [containsSub, h]

theorem containsSub_tail (pat : Str) (c : Char) (rest : Str)
    (h : containsSub pat rest = true) :
    containsSub pat (c :: rest) = true := by
  simp [containsSub, h]

theorem scanAltsF_mem (alts : List Str) (kw : Str) (hkw : kw ∈ alts)
    (hne : kw ≠ []) :
    ∀ (fuel : Nat) (s : Str), s.length ≤ fuel →
    containsSub kw s = true →
    (∀ k2 ∈ alts, k2 ≠ kw → containsSub k2 s = false) →
    kw ∈ scanAltsF alts fuel s := by
  intro fuel
  induction fuel with
  | zero =>
    intro s hlen hc _
    have hs : s = [] := List.length_eq_zero.mp (Nat.le_zero.mp hlen)
    subst hs
    simp [containsSub, List.isEmpty_iff, hne] at hc
  | succ n ih =>
    intro s hlen hc hothers
    cases s with
    | nil => simp [containsSub, List.isEmpty_iff, hne] at hc
    | cons c rest =>
      cases hfm : firstMatch alts (c :: rest) with
      | some k =>
        obtain ⟨hkmem, hksw⟩ := firstMatch_some alts (c :: rest) k hfm
        by_cases hkk : k = kw
        · subst hkk
          simp [scanAltsF, hfm]
        · have hcs := containsSub_of_startsWith k (c :: rest) hksw
          rw [hothers k hkmem hkk] at hcs
          exact absurd hcs (by simp)
      | none =>
        have hsw : startsWith kw (c :: rest) = false :=
          firstMatch_none alts (c :: rest) hfm kw hkw
        have hc2 : containsSub kw rest = true := by
          simpa [containsSub, hsw] using hc
        have hothers2 : ∀ k2 ∈ alts, k2 ≠ kw →
            containsSub k2 rest = false := by
          intro k2 hk2 hne2
          have h0 := hothers k2 hk2 hne2
          cases hcc : containsSub k2 rest with
          | false => rfl
          | true =>
            have := containsSub_tail k2 c rest hcc
            rw [h0] at this
            exact absurd this (by simp)
        have hret := ih rest (by simp only [List.length_cons] at hlen; omega)
          hc2 hothers2
        simp only [scanAltsF, hfm]
        exact hret

theorem mem_setInsert_self {α : Type} [DecidableEq α] (x : α)
    (l : List α) : x ∈ setInsert x l := by
  unfold setInsert
  split
  · assumption
  · simp

theorem mem_setInsert_of_mem {α : Type} [DecidableEq α] (x y : α)
    (l : List α) (h : y ∈ l) : y ∈ setInsert x l := by
  unfold setInsert
  split
  · exact h
  · exact List.mem_append_left _ h

theorem inner_fold_mono (cat : Str) :
    ∀ (ks : List Str) (acc : List (Str × Str)) (x : Str × Str), x ∈ acc →
    x ∈ ks.foldl (fun a k => setInsert (normalize_service_name k, cat) a)
      acc := by
  intro ks
  induction ks with
  | nil => intro acc x h; exact h
  | cons k rest ih =>
    intro acc x h
    rw [List.foldl_cons]
    exact ih _ _ (mem_setInsert_of_mem _ _ _ h)

theorem inner_fold_mem (cat : Str) (k : Str) :
    ∀ (ks : List Str), k ∈ ks → ∀ (acc : List (Str × Str)),
    (normalize_service_name k, cat)
      ∈ ks.foldl (fun a k2 => setInsert (normalize_service_name k2, cat) a)
        acc := by
  intro ks
  induction ks with
  | nil => intro h; cases h
  | cons a rest ih =>
    intro hk acc
    rw [List.foldl_cons]
    rcases List.mem_cons.mp hk with h | h
    · rw [h]
      exact inner_fold_mono cat rest _ _ (mem_setInsert_self _ _)
    · exact ih h _

theorem outer_fold_mono (content : Str) :
    ∀ (pats : List (Str × List Str)) (acc : List (Str × Str))
      (x : Str × Str), x ∈ acc →
    x ∈ pats.foldl (fun acc2 p =>
      (scanAlts p.2 (lowerStr content)).foldl
        (fun a k => setInsert (normalize_service_name k, p.1) a) acc2)
      acc := by
  intro pats
  induction pats with
  | nil => intro acc x h; exact h
  | cons p rest ih =>
    intro acc x h
    rw [List.foldl_cons]
    exact ih _ _ (inner_fold_mono p.1 _ _ _ h)

theorem find_accounts_mem (content : Str) (cat : Str) (alts : List Str)
    (kw : Str) (hpat : (cat, alts) ∈ categoryPatterns)
    (hkw : kw ∈ scanAlts alts (lowerStr content)) :
    (normalize_service_name kw, cat) ∈ find_accounts content := by
  unfold find_accounts
  obtain ⟨l1, l2, heq⟩ := List.append_of_mem hpat
  rw [heq, List.foldl_append, List.foldl_cons]
  exact outer_fold_mono content l2 _ _
    (inner_fold_mem cat kw _ hkw _)

/-- C10 counterexample: the text dropbox contains the Cloud Services
keyword box as a raw substring, and box is one of that category's
alternatives, yet the classification result does not contain the
(box, Cloud Services) pair: the single non-overlapping scan of the
category matches dropbox first and consumes the characters of the inner
occurrence.  The claim says any text containing the keyword anywhere
produces the pair. -/
theorem c10_counterexample :
    containsSub ("box".toList) (lowerStr ("dropbox".toList)) = true
    ∧ (∃ alts, (("Cloud Services".toList), alts) ∈ categoryPatterns
        ∧ ("box".toList) ∈ alts)
    ∧ ("box".toList, "Cloud Services".toList)
      ∉ find_accounts ("dropbox".toList)
    ∧ find_accounts ("dropbox".toList)
      = [(("dropbox".toList), ("Cloud Services".toList))] :=
  ⟨by decide,
   ⟨["google", "dropbox", "icloud", "onedrive", "box", "mega",
      "protonmail"].map String.toList, by decide, by decide⟩,
   by decide, by decide⟩

/-- C10 (amended): classification matches keywords as raw
case-insensitive substrings with no word-boundary requirement, but each
category's text is scanned left to right without overlap, earlier-listed
alternatives preferred, so a keyword occurrence overlapping an earlier
same-category match is not reported.  In particular any text whose only
same-category keyword occurrences are of the keyword itself — even inside
a longer word, as with bank inside riverbank — produces the
corresponding (normalized service, category) pair. -/
theorem c10_amended (content : Str) (cat : Str) (alts : List Str)
    (kw : Str) (hpat : (cat, alts) ∈ categoryPatterns) (hkw : kw ∈ alts)
    (hne : kw ≠ [])
    (hsub : containsSub kw (lowerStr content) = true)
    (hsole : ∀ k2 ∈ alts, k2 ≠ kw →
      containsSub k2 (lowerStr content) = false) :
    (normalize_service_name kw, cat) ∈ find_accounts content := by
  apply find_accounts_mem content cat alts kw hpat
  unfold scanAlts
  exact scanAltsF_mem alts kw hkw hne _ _ (Nat.le_refl _) hsub hsole

/-- C10 witness: riverbank yields the Finance pair for bank even though
bank only occurs inside a longer word. -/
theorem c10_amended_witness :
    ((("Finance".toList),
        (["paypal", "stripe", "bank", "credit", "venmo", "cashapp",
          "wise", "coinbase", "crypto"].map String.toList))
        ∈ categoryPatterns
      ∧ ("bank".toList)
        ∈ (["paypal", "stripe", "bank", "credit", "venmo", "cashapp",
            "wise", "coinbase", "crypto"].map String.toList)
      ∧ ("bank".toList : Str) ≠ []
      ∧ containsSub ("bank".toList) (lowerStr ("riverbank".toList)) = true
      ∧ (∀ k2 ∈ (["paypal", "stripe", "bank", "credit", "venmo",
            "cashapp", "wise", "coinbase", "crypto"].map String.toList),
          k2 ≠ ("bank".toList) →
          containsSub k2 (lowerStr ("riverbank".toList)) = false))
    ∧ (normalize_service_name ("bank".toList), ("Finance".toList))
      ∈ find_accounts ("riverbank".toList) :=
  ⟨⟨by decide, by decide, by decide, by decide, by decide⟩,
   c10_amended ("riverbank".toList) ("Finance".toList)
     (["paypal", "stripe", "bank", "credit", "venmo", "cashapp", "wise",
       "coinbase", "crypto"].map String.toList) ("bank".toList)
     (by decide) (by decide) (by decide) (by decide) (by decide)⟩
